import Mathlib

/-!
Shallow embedding of the fscancer repository (src/combine_mutations.py and
src/sample_filter.py) and verification of the frozen claims about it.

Strings are modelled as lists of characters (`Str`); a text file is a list of
lines with the trailing newline removed (`FileContent`).  A file that cannot
be opened is modelled as `none : Option FileContent`; Python exceptions that
escape a function are modelled with `Except`.
-/

set_option maxRecDepth 10000

abbrev Str := List Char

/-- Convert a Lean string literal to the `List Char` representation. -/
def str (s : String) : Str := s.toList

/-- The characters removed by Python's `str.strip()` (ASCII whitespace). -/
def isPySpace (c : Char) : Bool :=
  c = ' ' || c = '\t' || c = '\n' || c = '\r' || c = Char.ofNat 11 || c = Char.ofNat 12

/-- Python `str.strip()`: drop leading and trailing whitespace. -/
def strip (l : Str) : Str :=
  ((l.dropWhile isPySpace).reverse.dropWhile isPySpace).reverse

/-- Python `str.lower()` (ASCII case folding suffices for the data involved). -/
def lower (l : Str) : Str := l.map Char.toLower

/-- Python `line.startswith('#')`. -/
def startsHash : Str → Bool
  | [] => false
  | c :: _ => c = '#'

/-- Python `s.split(sep)` for a single-character separator: split at every
occurrence, keeping empty pieces (`"".split(sep) == [""]`). -/
def splitOnChar (sep : Char) : Str → List Str
  | [] => [[]]
  | c :: cs =>
    match splitOnChar sep cs with
    | [] => if c = sep then [[], []] else [[c]]
    | h :: t => if c = sep then [] :: h :: t else (c :: h) :: t

/-- Python `s.count(c)` for a single character. -/
def countChar (c : Char) (l : Str) : Nat :=
  l.foldl (fun n x => if x = c then n + 1 else n) 0

/-- `leadsWith n h` is true when `n` occurs at the start of `h`. -/
def leadsWith : Str → Str → Bool
  | [], _ => true
  | _ :: _, [] => false
  | a :: as, b :: bs => a = b && leadsWith as bs

/-- Python `n in h`: `n` occurs somewhere inside `h` as a contiguous run. -/
def isSubstr (n : Str) : Str → Bool
  | [] => n.isEmpty
  | c :: cs => leadsWith n (c :: cs) || isSubstr n cs

/-- A regex word character (`\w` over the ASCII data involved). -/
def isWordChar (c : Char) : Bool := c.isAlphanum || c = '_'

/-- `w` occurs at the start of `s` and the character following the occurrence
(if any) is not a word character: the right half of a `\b w \b` match. -/
def boundedHere (w s : Str) : Bool :=
  leadsWith w s &&
    (match s.drop w.length with
     | [] => true
     | c :: _ => !isWordChar c)

/-- Scan `s` for a word-boundary-delimited occurrence of `w`; `prevWord`
records whether the character just before the current position is a word
character (no left word boundary there). -/
def wordBoundedAux (w : Str) : Bool → Str → Bool
  | _, [] => false
  | prevWord, c :: cs =>
    ((!prevWord) && boundedHere w (c :: cs)) || wordBoundedAux w (isWordChar c) cs

/-- Regex `re.search(r'\b w \b', s)` for a word `w` made of word characters. -/
def containsWordBounded (w s : Str) : Bool :=
  wordBoundedAux w false s

/-- Accumulator pass for `re.findall(r'\d+', s)`: `cur` is the reversed
digit run currently being read. -/
def digitRunsAux : Str → Str → List Str
  | [], cur => if cur.isEmpty then [] else [cur.reverse]
  | c :: cs, cur =>
    if c.isDigit then digitRunsAux cs (c :: cur)
    else if cur.isEmpty then digitRunsAux cs []
    else cur.reverse :: digitRunsAux cs []

/-- Python `re.findall(r'\d+', s)`: the maximal digit runs of `s`, in order. -/
def digitRuns (s : Str) : List Str := digitRunsAux s []

/-! ### Python dict operations (insertion-ordered association list) -/

/-- Python `d[k] = v`: replace the value at `k` in place, else append. -/
def dinsert (k : Str) (v : Bool) : List (Str × Bool) → List (Str × Bool)
  | [] => [(k, v)]
  | (k', v') :: rest =>
    if k' = k then (k', v) :: rest else (k', v') :: dinsert k v rest

/-- Python `d.update(m)`: insert every entry of `m` into `d`, in order. -/
def dupdate (d m : List (Str × Bool)) : List (Str × Bool) :=
  m.foldl (fun acc kv => dinsert kv.1 kv.2 acc) d

/-- Python `d.get(k)` / `d[k]` lookup. -/
def dlookup (k : Str) : List (Str × Bool) → Option Bool
  | [] => none
  | (k', v) :: rest => if k' = k then some v else dlookup k rest

/-! ### sample_filter.py -/

/-- A text file as a list of lines (trailing newlines removed). -/
abbrev FileContent := List Str

/-- `SAMPLE_ID_COLUMNS` from sample_filter.py. -/
def SAMPLE_ID_COLUMNS : List Str :=
  [str "sample_id", str "sample", str "tumor_sample_barcode",
   str "sample_barcode", str "samplebarcode", str "sampleid",
   str "tumor_sample_id"]

/-- `SAMPLE_TYPE_COLUMNS` from sample_filter.py. -/
def SAMPLE_TYPE_COLUMNS : List Str :=
  [str "sample_type", str "sampletype", str "sample_type_detail",
   str "model", str "is_model", str "sample_class", str "sampleclass"]

/-- The strings matched by the regex `cell[- _]?line`. -/
def cellLineVariants : List Str :=
  [str "cellline", str "cell-line", str "cell line", str "cell_line"]

/-- The strings matched by the regex `in[- ]?vitro`. -/
def inVitroVariants : List Str :=
  [str "invitro", str "in-vitro", str "in vitro"]

/-- The three choices for each optional separator `[- ]?`. -/
def sepOpts : List Str := [[], [Char.ofNat 45], [' ']]

/-- The strings matched by the regex `patient[- ]?derived[- ]?xenograft`. -/
def patientDXVariants : List Str :=
  (sepOpts.map (fun a =>
    sepOpts.map (fun b => str "patient" ++ a ++ str "derived" ++ b ++ str "xenograft"))).flatten

/-- `is_model_sample` from sample_filter.py: lowercase and strip the value,
then test the eight `MODEL_TYPE_PATTERNS` regexes. -/
def is_model_sample (v : Str) : Bool :=
  if v.isEmpty then false
  else
    let s := strip (lower v)
    containsWordBounded (str "pdx") s ||
    patientDXVariants.any (fun w => isSubstr w s) ||
    containsWordBounded (str "xenograft") s ||
    cellLineVariants.any (fun w => isSubstr w s) ||
    containsWordBounded (str "cellline") s ||
    inVitroVariants.any (fun w => isSubstr w s) ||
    containsWordBounded (str "model") s ||
    containsWordBounded (str "ccle") s

/-- `is_model_sample` applied to an absent (Python `None`) value. -/
def is_model_sample_opt : Option Str → Bool
  | none => false
  | some v => is_model_sample v

/-- Index of the first element of `hl` satisfying `p`, counting from `i`. -/
def findIdxAux (p : Str → Bool) (i : Nat) : List Str → Option Nat
  | [] => none
  | h :: t => if p h then some i else findIdxAux p (i + 1) t

/-- Inner loop of `_find_column_index`: try each candidate pattern in
priority order against the normalized headers. -/
def findColAux (hl : List Str) : List Str → Option Nat
  | [] => none
  | p :: ps =>
    match findIdxAux (fun h => decide (h = lower p)) 0 hl with
    | some i => some i
    | none => findColAux hl ps

/-- `_find_column_index` from sample_filter.py: lowercase and strip every
header, then return the first header index matching any candidate, in
candidate-priority order. -/
def _find_column_index (headers pats : List Str) : Option Nat :=
  findColAux (headers.map (fun h => strip (lower h))) pats

/-- The first line of the file that does not start with `#`. -/
def firstNonHash : FileContent → Option Str
  | [] => none
  | l :: ls => if startsHash l then firstNonHash ls else some l

/-- `_detect_delimiter` from sample_filter.py, on the file's content:
tab when the first non-comment line has at least as many tabs as commas
(or when there is no such line), else comma. -/
def _detect_delimiter (c : FileContent) : Char :=
  match firstNonHash c with
  | none => '\t'
  | some l => if countChar ',' l ≤ countChar '\t' l then '\t' else ','

/-- Skip the leading `#` lines; return the header line and the remaining
lines, or `none` when every line is a comment. -/
def splitHeader : FileContent → Option (Str × FileContent)
  | [] => none
  | l :: ls => if startsHash l then splitHeader ls else some (l, ls)

/-- `get_sample_id_column_index` from sample_filter.py. -/
def get_sample_id_column_index (headers : List Str) : Option Nat :=
  _find_column_index headers SAMPLE_ID_COLUMNS

/-- The sample-identifier collection loop of `is_file_entirely_model`:
skip comments and blank lines, split, skip short rows, strip the
sample field and keep it when non-empty. -/
def collectSamplesAux (delim : Char) (sidx : Nat) : List Str → List Str
  | [] => []
  | l :: ls =>
    if startsHash l || (strip l).isEmpty then collectSamplesAux delim sidx ls
    else
      let fields := splitOnChar delim (strip l)
      if fields.length ≤ sidx then collectSamplesAux delim sidx ls
      else
        let sid := strip (fields.getD sidx [])
        if sid.isEmpty then collectSamplesAux delim sidx ls
        else sid :: collectSamplesAux delim sidx ls

/-- The sample identifiers `is_file_entirely_model` collects from a file
(empty when the header or the sample-ID column cannot be resolved). -/
def collectedSamples (c : FileContent) : List Str :=
  let delim := _detect_delimiter c
  match splitHeader c with
  | none => []
  | some (hl, rest) =>
    match get_sample_id_column_index (splitOnChar delim (strip hl)) with
    | none => []
    | some sidx => collectSamplesAux delim sidx rest

/-- `is_file_entirely_model` from sample_filter.py. -/
def is_file_entirely_model (c : FileContent) (model : List Str) : Bool :=
  let delim := _detect_delimiter c
  match splitHeader c with
  | none => false
  | some (hl, rest) =>
    match get_sample_id_column_index (splitOnChar delim (strip hl)) with
    | none => false
    | some sidx =>
      let samples := collectSamplesAux delim sidx rest
      !samples.isEmpty && samples.all (fun s => decide (s ∈ model))

/-- The data-row loop of `_parse_metadata_file`: record
`identifier → is_model_sample(sample type)` for each well-formed row. -/
def parseMetaRows (delim : Char) (sidx tidx : Nat) :
    List Str → List (Str × Bool) → List (Str × Bool)
  | [], d => d
  | l :: ls, d =>
    if startsHash l || (strip l).isEmpty then parseMetaRows delim sidx tidx ls d
    else
      let fields := splitOnChar delim (strip l)
      if fields.length ≤ max sidx tidx then parseMetaRows delim sidx tidx ls d
      else
        let sid := strip (fields.getD sidx [])
        let stype := strip (fields.getD tidx [])
        if sid.isEmpty then parseMetaRows delim sidx tidx ls d
        else parseMetaRows delim sidx tidx ls (dinsert sid (is_model_sample stype) d)

/-- `_parse_metadata_file` from sample_filter.py, on the file's content. -/
def _parse_metadata_file (c : FileContent) : List (Str × Bool) :=
  let delim := _detect_delimiter c
  match splitHeader c with
  | none => []
  | some (hl, rest) =>
    let h := strip hl
    if h.isEmpty then []
    else
      let headers := splitOnChar delim h
      match _find_column_index headers SAMPLE_ID_COLUMNS with
      | none => []
      | some sidx =>
        match _find_column_index headers SAMPLE_TYPE_COLUMNS with
        | none => []
        | some tidx => parseMetaRows delim sidx tidx rest []

/-- The aggregation loop of `load_sample_metadata`: each discovered file
either raises while being parsed (`none`, logged and skipped) or yields a
mapping that is merged with `dict.update`. -/
def load_sample_metadata (files : List (Option FileContent)) : List (Str × Bool) :=
  files.foldl
    (fun acc f? =>
      match f? with
      | none => acc
      | some c => dupdate acc (_parse_metadata_file c))
    []

/-! ### combine_mutations.py -/

/-- `is_model_study_path` from combine_mutations.py: test the lowercased path
against the six word-bounded `MODEL_STUDY_PATTERNS`. -/
def is_model_study_path (p : Str) : Bool :=
  let pl := lower p
  containsWordBounded (str "ccle") pl ||
  containsWordBounded (str "pdx") pl ||
  containsWordBounded (str "cellline") pl ||
  containsWordBounded (str "cell_line") pl ||
  containsWordBounded (str "xenograft") pl ||
  containsWordBounded (str "test") pl

/-- Split a path into the part up to and including the last `/` and the part
after it. -/
def basenameSplit (p : Str) : Str × Str :=
  let tail := (p.reverse.takeWhile (fun c => decide (c ≠ '/'))).reverse
  (p.take (p.length - tail.length), tail)

/-- `os.path.basename` for POSIX paths. -/
def basename (p : Str) : Str := (basenameSplit p).2

/-- `os.path.dirname` for POSIX paths: the text before the last `/`, with
trailing slashes removed unless the result is all slashes. -/
def dirname (p : Str) : Str :=
  let head := (basenameSplit p).1
  if !head.isEmpty && !head.all (fun c => decide (c = '/')) then
    (head.reverse.dropWhile (fun c => decide (c = '/'))).reverse
  else head

/-- `extract_study_info` from combine_mutations.py: derive
(project name, study, center) from a file path. -/
def extract_study_info (p : Str) : Str × Str × Str :=
  let parts := splitOnChar '/' p
  if 3 ≤ parts.length then
    let proj := parts.getD (parts.length - 2) []
    let sp := splitOnChar '_' proj
    if 2 ≤ sp.length then (proj, sp.getD 0 [], sp.getD 1 [])
    else (proj, proj, [])
  else
    let proj := basename (dirname p)
    (proj, proj, [])

/-- The project name derived from a path. -/
def projOf (p : Str) : Str := (extract_study_info p).1

/-- The study component derived from a path. -/
def studyOf (p : Str) : Str := (extract_study_info p).2.1

/-- The center component derived from a path. -/
def centerOf (p : Str) : Str := (extract_study_info p).2.2

/-- The deduplication key `uid = study + center` of combine_mutations.py. -/
def uidOf (p : Str) : Str := studyOf p ++ centerOf p

/-- The five column-role indices resolved from a mutation-file header. -/
structure RoleIdx where
  gene : Option Nat
  vtype : Option Nat
  hgvsp : Option Nat
  sample : Option Nat
  cls : Option Nat
deriving DecidableEq, Repr

/-- One iteration of the header loop of `process_mutation_file`: strip the
header and compare it (case-sensitively) with the five canonical column
names, recording index `i` for the matching role. -/
def roleStep (i : Nat) (r : RoleIdx) (h : Str) : RoleIdx :=
  let hc := strip h
  if hc = str "Hugo_Symbol" then { r with gene := some i }
  else if hc = str "Variant_Type" then { r with vtype := some i }
  else if hc = str "HGVSp" then { r with hgvsp := some i }
  else if hc = str "Tumor_Sample_Barcode" then { r with sample := some i }
  else if hc = str "Consequence" then { r with cls := some i }
  else r

/-- The header loop of `process_mutation_file`, the loop index starting
at `i`. -/
def resolveRolesAux (i : Nat) (r : RoleIdx) : List Str → RoleIdx
  | [] => r
  | h :: hs => resolveRolesAux (i + 1) (roleStep i r h) hs

/-- Resolve the five column roles from the header row, as
`process_mutation_file` does. -/
def resolveRoles (headers : List Str) : RoleIdx :=
  resolveRolesAux 0 ⟨none, none, none, none, none⟩ headers

/-- The index (counting from `i`) of the last header whose stripped text
equals `name`, accumulated in `acc`. -/
def findLastNameAux (name : Str) (i : Nat) (acc : Option Nat) : List Str → Option Nat
  | [] => acc
  | h :: hs =>
    findLastNameAux name (i + 1) (if strip h = name then some i else acc) hs

/-- The index of the last header whose stripped text equals `name` exactly
(case-sensitively). -/
def findLastName (name : Str) (headers : List Str) : Option Nat :=
  findLastNameAux name 0 none headers

/-- `fields[idx] if idx is not None and len(fields) > idx else ""`. -/
def getField (fields : List Str) : Option Nat → Str
  | some i => if i < fields.length then fields.getD i [] else []
  | none => []

/-- The frameshift computation of `process_mutation_file` (lines 234-251):
start and length from the digit runs of the HGVSp value when the
consequence mentions "frameshift", else empty start and length "0". -/
def frameshiftInfo (cls hgvsp : Str) : Str × Str :=
  let p :=
    if !isSubstr (str "frameshift") (lower cls) then (([] : Str), str "0")
    else
      let numbers := digitRuns hgvsp
      ((if 1 ≤ numbers.length then numbers.getD 0 [] else []),
       (if 2 ≤ numbers.length then numbers.getD 1 [] else str "0"))
  (p.1, if p.2.isEmpty then str "0" else p.2)

/-- One emitted output record (the seven tab-joined fields). -/
structure OutputRecord where
  proj : Str
  gene : Str
  sample : Str
  vtype : Str
  hgvsp : Str
  fsstart : Str
  fslen : Str
deriving DecidableEq, Repr

/-- Build the output record for one kept data row (lines 223-254 of
combine_mutations.py). -/
def makeRecord (proj : Str) (fields : List Str) (r : RoleIdx)
    (sidx : Option Nat) (hidx : Nat) : OutputRecord :=
  let gene := getField fields r.gene
  let sample := getField fields sidx
  let vtype0 := getField fields r.vtype
  let hgvsp := if hidx < fields.length then fields.getD hidx [] else []
  let cls := getField fields r.cls
  let vtype := if isSubstr (str "inframe") (lower cls) then str "SNP" else vtype0
  let fs := frameshiftInfo cls hgvsp
  ⟨proj, gene, sample, vtype, hgvsp, fs.1, fs.2⟩

/-- The data-row loop of `process_mutation_file`: skip comments and blank
lines, drop rows whose sample identifier is a known model sample (when
filtering is active), and emit a record for every kept row. -/
def processRows (proj : Str) (delim : Char) (r : RoleIdx) (sidx : Option Nat)
    (hidx : Nat) (model : List Str) (im : Bool) : List Str → List OutputRecord
  | [] => []
  | l :: ls =>
    if startsHash l || (strip l).isEmpty then
      processRows proj delim r sidx hidx model im ls
    else
      let fields := splitOnChar delim (strip l)
      let filtered := !im && !model.isEmpty &&
        (match sidx with
         | some i => decide (i < fields.length) &&
             decide (strip (fields.getD i []) ∈ model)
         | none => false)
      if filtered then processRows proj delim r sidx hidx model im ls
      else makeRecord proj fields r sidx hidx ::
        processRows proj delim r sidx hidx model im ls

/-- The part of `process_mutation_file` that runs once the file has been
opened: the entirely-model check, delimiter detection, header parsing,
column-role resolution and the data-row loop.  Returns the file's emitted
records. -/
def process_body (proj : Str) (c : FileContent) (model : List Str) (im : Bool) :
    List OutputRecord :=
  if !im && !model.isEmpty && is_file_entirely_model c model then []
  else
    let delim := _detect_delimiter c
    match splitHeader c with
    | none => []
    | some (hl, rest) =>
      let h := strip hl
      if h.isEmpty then []
      else
        let headers := splitOnChar delim h
        let r := resolveRoles headers
        let sidx :=
          match r.sample with
          | none => get_sample_id_column_index headers
          | some i => some i
        match r.hgvsp with
        | none => []
        | some hidx => processRows proj delim r sidx hidx model im rest

/-- `process_mutation_file` from combine_mutations.py.  The file's content is
`none` when opening it raises.  The duplicate-study check and the path-based
model-study check run before the file is touched; the entirely-model check
and delimiter detection open the file outside the `try` block, so an open
failure there escapes as `.error` carrying the updated seen set (the Python
set is mutated in place before the exception is raised). -/
def process_mutation_file (path : Str) (content? : Option FileContent)
    (model seen : List Str) (im : Bool) :
    Except (List Str) (List OutputRecord × List Str) :=
  if uidOf path ∈ seen then .ok ([], seen)
  else if !im && is_model_study_path path then .ok ([], uidOf path :: seen)
  else
    match content? with
    | none => .error (uidOf path :: seen)
    | some c => .ok (process_body (projOf path) c model im, uidOf path :: seen)

/-- One step of the merge driver's loop over a readable filesystem
`fs : Str → FileContent`: the record list and updated seen set produced for
one path. -/
def stepFile (fs : Str → FileContent) (model : List Str) (im : Bool)
    (p : Str) (seen : List Str) : List OutputRecord × List Str :=
  if uidOf p ∈ seen then ([], seen)
  else if !im && is_model_study_path p then ([], uidOf p :: seen)
  else (process_body (projOf p) (fs p) model im, uidOf p :: seen)

/-- The merge driver's file loop (`main` of combine_mutations.py): process
the paths in order, threading the seen-identity set, and collect each file's
record list. -/
def mergeRun (fs : Str → FileContent) (model : List Str) (im : Bool)
    (seen : List Str) : List Str → List (List OutputRecord) × List Str
  | [] => ([], seen)
  | p :: ps =>
    let r := stepFile fs model im p seen
    let rest := mergeRun fs model im r.2 ps
    (r.1 :: rest.1, rest.2)

/-- Lexicographic comparison of strings by code point (Python `<`). -/
def strLt : Str → Str → Bool
  | [], [] => false
  | [], _ :: _ => true
  | _ :: _, [] => false
  | a :: as, b :: bs => if a = b then strLt as bs else decide (a < b)

/-- Insert a path into an already-sorted list (stable). -/
def insertSorted (p : Str) : List Str → List Str
  | [] => [p]
  | q :: qs => if strLt p q then p :: q :: qs else q :: insertSorted p qs

/-- Python `sorted` on a list of paths (insertion sort). -/
def pySorted : List Str → List Str
  | [] => []
  | p :: ps => insertSorted p (pySorted ps)

/-- The merge driver on a set of discovered mutation files: process them in
lexicographically sorted path order starting from an empty seen set. -/
def mainRun (fs : Str → FileContent) (model : List Str) (im : Bool)
    (files : List Str) : List (List OutputRecord) × List Str :=
  mergeRun fs model im [] (pySorted files)

/-! ## Helper lemmas -/

theorem firstNonHash_append (cs ls : FileContent)
    (h : ∀ x ∈ cs, startsHash x = true) :
    firstNonHash (cs ++ ls) = firstNonHash ls := by
  induction cs with
  | nil => rfl
  | cons c cs ih =>
    have hc := h c (List.mem_cons_self c cs)
    simp only [List.cons_append, firstNonHash, hc, if_true]
    exact ih (fun x hx => h x (List.mem_cons_of_mem c hx))

theorem firstNonHash_all_hash (c : FileContent)
    (h : ∀ x ∈ c, startsHash x = true) :
    firstNonHash c = none := by
  have h2 := firstNonHash_append c [] h
  simpa using h2

/-! ## Claims -/

/-- C8: the delimiter detector skips leading `#` lines, counts tabs and
commas on the first non-comment line, and returns tab when the tab count is
at least the comma count and comma otherwise; an empty or all-comment file
yields tab. -/
theorem detect_delimiter_spec :
    (∀ (cs : FileContent) (l : Str) (rest : FileContent),
      (∀ x ∈ cs, startsHash x = true) → startsHash l = false →
      _detect_delimiter (cs ++ l :: rest) =
        if countChar ',' l ≤ countChar '\t' l then '\t' else ',') ∧
    (∀ c : FileContent, (∀ x ∈ c, startsHash x = true) →
      _detect_delimiter c = '\t') := by
  constructor
  · intro cs l rest hcs hl
    unfold _detect_delimiter
    rw [firstNonHash_append cs (l :: rest) hcs]
    simp [firstNonHash, hl]
  · intro c hc
    unfold _detect_delimiter
    rw [firstNonHash_all_hash c hc]

/-- Witness for C8 at concrete files: a comma-separated header after a
comment line yields comma, and an all-comment file yields tab. -/
theorem detect_delimiter_spec_witness :
    _detect_delimiter ([str "#c"] ++ str "a,b" :: []) =
      (if countChar ',' (str "a,b") ≤ countChar '\t' (str "a,b")
       then '\t' else ',') ∧
    _detect_delimiter [str "#x"] = '\t' :=
  ⟨detect_delimiter_spec.1 [str "#c"] (str "a,b") [] (by decide) (by decide),
   detect_delimiter_spec.2 [str "#x"] (by decide)⟩

/-- C4: `is_file_entirely_model` returns true exactly when the set of
distinct non-empty sample identifiers collected from the file's data rows is
non-empty and contained in the model-sample set; with a non-model sample or
with zero collected identifiers (including an unresolvable header or
sample-ID column) it returns false. -/
theorem entirely_model_iff :
    ∀ (c : FileContent) (model : List Str),
      is_file_entirely_model c model = true ↔
        collectedSamples c ≠ [] ∧ ∀ s ∈ collectedSamples c, s ∈ model := by
  intro c model
  unfold is_file_entirely_model collectedSamples
  rcases hsp : splitHeader c with _ | ⟨hl, rest⟩
  · simp
  · simp only
    rcases hsi : get_sample_id_column_index
        (splitOnChar (_detect_delimiter c) (strip hl)) with _ | sidx
    · simp
    · simp [List.all_eq_true, List.isEmpty_iff]

/-- C1 (counterexample): an open failure in the pre-`try` phase of
`process_mutation_file` (the entirely-model pre-pass / delimiter detection)
is not caught: at the concrete path `a/b_c/d` with an unreadable file and a
non-empty model-sample set, the exception propagates. -/
theorem process_unreadable_raises_cex :
    process_mutation_file (str "a/b_c/d") none [str "X"] [] false =
      .error [str "bc"] := by rfl

/-- C1 (amended): once the file can be opened, no exception propagates out
of `process_mutation_file`: every readable file yields a record list and an
updated seen set.  Exceptions inside the row-processing `try` block are
caught; only open failures in the pre-`try` calls escape. -/
theorem process_readable_never_raises :
    ∀ (path : Str) (c : FileContent) (model seen : List Str) (im : Bool),
      ∃ out seen', process_mutation_file path (some c) model seen im =
        .ok (out, seen') := by
  intro path c model seen im
  unfold process_mutation_file
  split_ifs with h1 h2
  · exact ⟨[], seen, rfl⟩
  · exact ⟨[], uidOf path :: seen, rfl⟩
  · exact ⟨_, _, rfl⟩

theorem roleStep_proj (i : Nat) (r : RoleIdx) (h : Str) :
    roleStep i r h =
      ⟨if strip h = str "Hugo_Symbol" then some i else r.gene,
       if strip h = str "Variant_Type" then some i else r.vtype,
       if strip h = str "HGVSp" then some i else r.hgvsp,
       if strip h = str "Tumor_Sample_Barcode" then some i else r.sample,
       if strip h = str "Consequence" then some i else r.cls⟩ := by
  unfold roleStep
  dsimp only
  by_cases h1 : strip h = str "Hugo_Symbol"
  · rw [h1]; simp +decide
  · simp only [if_neg h1]
    by_cases h2 : strip h = str "Variant_Type"
    · rw [h2]; simp +decide
    · simp only [if_neg h2]
      by_cases h3 : strip h = str "HGVSp"
      · rw [h3]; simp +decide
      · simp only [if_neg h3]
        by_cases h4 : strip h = str "Tumor_Sample_Barcode"
        · rw [h4]; simp +decide
        · simp only [if_neg h4]
          by_cases h5 : strip h = str "Consequence"
          · rw [h5]; simp +decide
          · simp only [if_neg h5]

theorem resolveRolesAux_eq (hs : List Str) : ∀ (i : Nat) (r : RoleIdx),
    resolveRolesAux i r hs =
      ⟨findLastNameAux (str "Hugo_Symbol") i r.gene hs,
       findLastNameAux (str "Variant_Type") i r.vtype hs,
       findLastNameAux (str "HGVSp") i r.hgvsp hs,
       findLastNameAux (str "Tumor_Sample_Barcode") i r.sample hs,
       findLastNameAux (str "Consequence") i r.cls hs⟩ := by
  induction hs with
  | nil => intro i r; rfl
  | cons h t ih =>
    intro i r
    simp only [resolveRolesAux, findLastNameAux]
    rw [ih, roleStep_proj]

/-- C2 (counterexample): the five column roles are matched
case-sensitively: the lowercase header `hugo_symbol` does not resolve the
gene role, contradicting the claimed case-insensitive match. -/
theorem resolve_role_case_sensitive_cex :
    (resolveRoles [str "hugo_symbol"]).gene = none := by decide

/-- C2 (amended): each of the five column roles is resolved by exact
case-SENSITIVE comparison of the stripped header with the role's canonical
name, the last matching header winning; the case-insensitive resolver is
only the sample-ID fallback. -/
theorem resolve_roles_last_exact_match :
    ∀ headers : List Str,
      resolveRoles headers =
        ⟨findLastName (str "Hugo_Symbol") headers,
         findLastName (str "Variant_Type") headers,
         findLastName (str "HGVSp") headers,
         findLastName (str "Tumor_Sample_Barcode") headers,
         findLastName (str "Consequence") headers⟩ := by
  intro headers
  unfold resolveRoles findLastName
  exact resolveRolesAux_eq headers 0 ⟨none, none, none, none, none⟩

theorem nil_not_mem_digitRunsAux :
    ∀ (s cur : Str), [] ∉ digitRunsAux s cur := by
  intro s
  induction s with
  | nil =>
    intro cur
    unfold digitRunsAux
    split_ifs with h
    · simp
    · simp only [List.mem_singleton]
      intro hc
      rw [eq_comm, List.reverse_eq_nil_iff] at hc
      rw [hc] at h
      simp at h
  | cons c cs ih =>
    intro cur
    unfold digitRunsAux
    split_ifs with h1 h2
    · exact ih (c :: cur)
    · exact ih []
    · intro hmem
      rcases List.mem_cons.mp hmem with hc | hc
      · rw [eq_comm, List.reverse_eq_nil_iff] at hc
        rw [hc] at h2
        simp at h2
      · exact ih [] hc

theorem digitRuns_getD_ne_nil (s : Str) (n : Nat)
    (h : n < (digitRuns s).length) :
    (digitRuns s).getD n [] ≠ [] := by
  intro hc
  have hmem : (digitRuns s).getD n [] ∈ digitRuns s := by
    rw [List.getD_eq_getElem _ _ h]
    exact List.getElem_mem h
  rw [hc] at hmem
  exact nil_not_mem_digitRunsAux s [] hmem

/-- C3: for every kept row, when the consequence does not contain
"frameshift" (case-insensitively) the emitted frameshift start is empty and
the length is "0" regardless of digits in the amino-acid-change value; when
it does, the first maximal digit run of the emitted amino-acid-change value
becomes the start and the second the length, the length defaulting to "0"
when fewer than two digit runs exist. -/
theorem frameshift_fields_spec :
    ∀ (proj : Str) (fields : List Str) (r : RoleIdx) (sidx : Option Nat)
      (hidx : Nat),
      (isSubstr (str "frameshift") (lower (getField fields r.cls)) = false →
        (makeRecord proj fields r sidx hidx).fsstart = [] ∧
        (makeRecord proj fields r sidx hidx).fslen = str "0") ∧
      (isSubstr (str "frameshift") (lower (getField fields r.cls)) = true →
        (makeRecord proj fields r sidx hidx).fsstart =
          (digitRuns ((makeRecord proj fields r sidx hidx).hgvsp)).getD 0 [] ∧
        (makeRecord proj fields r sidx hidx).fslen =
          if 2 ≤ (digitRuns ((makeRecord proj fields r sidx hidx).hgvsp)).length
          then (digitRuns ((makeRecord proj fields r sidx hidx).hgvsp)).getD 1 []
          else str "0") := by
  intro proj fields r sidx hidx
  constructor
  · intro h
    simp [makeRecord, frameshiftInfo, h]
  · intro h
    have hg : (makeRecord proj fields r sidx hidx).hgvsp =
        (if hidx < fields.length then fields.getD hidx [] else []) := rfl
    rw [hg]
    set hgv := (if hidx < fields.length then fields.getD hidx [] else [])
      with hdef
    constructor
    · simp only [makeRecord, frameshiftInfo, h, Bool.not_true, ← hdef]
      by_cases h1 : 1 ≤ (digitRuns hgv).length
      · simp [h1]
      · have h0 : digitRuns hgv = [] := by
          rw [← List.length_eq_zero]
          omega
        simp [h1, h0]
    · simp only [makeRecord, frameshiftInfo, h, Bool.not_true, ← hdef]
      by_cases h2 : 2 ≤ (digitRuns hgv).length
      · have hne : (digitRuns hgv).getD 1 [] ≠ [] :=
          digitRuns_getD_ne_nil hgv 1 (by omega)
        simp only [List.getD, List.get?_eq_getElem?] at hne
        simp [h2, List.isEmpty_iff, hne]
      · simp [h2]

/-- C5 (counterexample): `is_model_sample` classifies "Invitrogen" as a
model sample although none of the claimed patterns occurs word-bounded in
it (the `in[- ]?vitro` regex has no word boundaries and matches inside the
unrelated token). -/
theorem model_sample_word_boundary_cex :
    is_model_sample (str "Invitrogen") = true ∧
    containsWordBounded (str "pdx") (strip (lower (str "Invitrogen"))) = false ∧
    containsWordBounded (str "xenograft") (strip (lower (str "Invitrogen"))) = false ∧
    containsWordBounded (str "cellline") (strip (lower (str "Invitrogen"))) = false ∧
    containsWordBounded (str "cell line") (strip (lower (str "Invitrogen"))) = false ∧
    containsWordBounded (str "cell-line") (strip (lower (str "Invitrogen"))) = false ∧
    containsWordBounded (str "cell_line") (strip (lower (str "Invitrogen"))) = false ∧
    containsWordBounded (str "invitro") (strip (lower (str "Invitrogen"))) = false ∧
    containsWordBounded (str "in vitro") (strip (lower (str "Invitrogen"))) = false ∧
    containsWordBounded (str "in-vitro") (strip (lower (str "Invitrogen"))) = false ∧
    containsWordBounded (str "model") (strip (lower (str "Invitrogen"))) = false := by
  decide

/-- C5 (amended): the classifier returns true whenever the lowercased,
stripped value contains a word-bounded occurrence of pdx, xenograft,
cellline, model or ccle, or a plain substring occurrence of any
cell-line / in-vitro / patient-derived-xenograft variant (these three
multi-word patterns are NOT word-bounded); it returns false for the patient
sample types, the empty string and an absent value, and the word-bounded
"model" pattern does not match "modeling". -/
theorem model_sample_classifier_spec :
    (∀ v : Str, v.isEmpty = false →
      (containsWordBounded (str "pdx") (strip (lower v)) = true ∨
       containsWordBounded (str "xenograft") (strip (lower v)) = true ∨
       containsWordBounded (str "cellline") (strip (lower v)) = true ∨
       containsWordBounded (str "model") (strip (lower v)) = true ∨
       containsWordBounded (str "ccle") (strip (lower v)) = true ∨
       cellLineVariants.any (fun w => isSubstr w (strip (lower v))) = true ∨
       inVitroVariants.any (fun w => isSubstr w (strip (lower v))) = true ∨
       patientDXVariants.any (fun w => isSubstr w (strip (lower v))) = true) →
      is_model_sample v = true) ∧
    is_model_sample (str "Patient") = false ∧
    is_model_sample (str "Primary Tumor") = false ∧
    is_model_sample (str "Metastatic") = false ∧
    is_model_sample (str "Normal") = false ∧
    is_model_sample (str "Tumor") = false ∧
    is_model_sample [] = false ∧
    is_model_sample_opt none = false ∧
    is_model_sample (str "modeling") = false := by
  refine ⟨?_, by decide, by decide, by decide, by decide, by decide,
    by decide, by decide, by decide⟩
  intro v hv hpat
  simp only [is_model_sample, hv, Bool.false_eq_true, if_false]
  rcases hpat with h | h | h | h | h | h | h | h <;> simp [h]

/-- Witness for C5 at the concrete value "PDX". -/
theorem model_sample_classifier_spec_witness :
    (str "PDX").isEmpty = false ∧
    containsWordBounded (str "pdx") (strip (lower (str "PDX"))) = true ∧
    is_model_sample (str "PDX") = true :=
  ⟨by decide, by decide,
   model_sample_classifier_spec.1 (str "PDX") (by decide) (Or.inl (by decide))⟩

/-- Witness for C3 at the spec's own example: consequence
`frameshift_variant` with amino-acid change `p.K45Afs*12`. -/
theorem frameshift_fields_spec_witness :
    isSubstr (str "frameshift")
      (lower (getField [str "frameshift_variant", str "p.K45Afs*12"]
        (RoleIdx.mk none none (some 1) none (some 0)).cls)) = true ∧
    ((makeRecord (str "p") [str "frameshift_variant", str "p.K45Afs*12"]
        (RoleIdx.mk none none (some 1) none (some 0)) none 1).fsstart =
      (digitRuns ((makeRecord (str "p")
        [str "frameshift_variant", str "p.K45Afs*12"]
        (RoleIdx.mk none none (some 1) none (some 0)) none 1).hgvsp)).getD 0 [] ∧
     (makeRecord (str "p") [str "frameshift_variant", str "p.K45Afs*12"]
        (RoleIdx.mk none none (some 1) none (some 0)) none 1).fslen =
      if 2 ≤ (digitRuns ((makeRecord (str "p")
          [str "frameshift_variant", str "p.K45Afs*12"]
          (RoleIdx.mk none none (some 1) none (some 0)) none 1).hgvsp)).length
      then (digitRuns ((makeRecord (str "p")
          [str "frameshift_variant", str "p.K45Afs*12"]
          (RoleIdx.mk none none (some 1) none (some 0)) none 1).hgvsp)).getD 1 []
      else str "0") :=
  ⟨by decide,
   (frameshift_fields_spec (str "p")
      [str "frameshift_variant", str "p.K45Afs*12"]
      (RoleIdx.mk none none (some 1) none (some 0)) none 1).2 (by decide)⟩

theorem stepFile_skip (fs : Str → FileContent) (model : List Str) (im : Bool)
    (p : Str) (seen : List Str) (h : uidOf p ∈ seen) :
    stepFile fs model im p seen = ([], seen) := by
  unfold stepFile
  rw [if_pos h]

theorem stepFile_uid_mem (fs : Str → FileContent) (model : List Str)
    (im : Bool) (p : Str) (seen : List Str) :
    uidOf p ∈ (stepFile fs model im p seen).2 := by
  unfold stepFile
  split_ifs with h1 h2
  · exact h1
  · exact List.mem_cons_self _ _
  · exact List.mem_cons_self _ _

theorem stepFile_seen_mono (fs : Str → FileContent) (model : List Str)
    (im : Bool) (p : Str) (seen : List Str) (q : Str) (h : q ∈ seen) :
    q ∈ (stepFile fs model im p seen).2 := by
  unfold stepFile
  split_ifs with h1 h2
  · exact h
  · exact List.mem_cons_of_mem _ h
  · exact List.mem_cons_of_mem _ h

theorem mergeRun_length (fs : Str → FileContent) (model : List Str)
    (im : Bool) : ∀ (l : List Str) (seen : List Str),
    (mergeRun fs model im seen l).1.length = l.length := by
  intro l
  induction l with
  | nil => intro seen; rfl
  | cons p ps ih =>
    intro seen
    simp only [mergeRun, List.length_cons]
    rw [ih]

theorem mergeRun_seen_mono (fs : Str → FileContent) (model : List Str)
    (im : Bool) (q : Str) : ∀ (l : List Str) (seen : List Str), q ∈ seen →
    q ∈ (mergeRun fs model im seen l).2 := by
  intro l
  induction l with
  | nil => intro seen h; exact h
  | cons p ps ih =>
    intro seen h
    simp only [mergeRun]
    exact ih _ (stepFile_seen_mono fs model im p seen q h)

theorem mergeRun_uid_mem (fs : Str → FileContent) (model : List Str)
    (im : Bool) (p : Str) : ∀ (l : List Str) (seen : List Str), p ∈ l →
    uidOf p ∈ (mergeRun fs model im seen l).2 := by
  intro l
  induction l with
  | nil => intro seen h; exact absurd h (List.not_mem_nil p)
  | cons q ps ih =>
    intro seen h
    simp only [mergeRun]
    rcases List.mem_cons.mp h with rfl | hmem
    · exact mergeRun_seen_mono fs model im (uidOf p) ps _
        (stepFile_uid_mem fs model im p seen)
    · exact ih _ hmem

theorem mergeRun_skip_at (fs : Str → FileContent) (model : List Str)
    (im : Bool) : ∀ (l : List Str) (seen : List Str) (j : Nat)
    (hj : j < l.length), uidOf (l.get ⟨j, hj⟩) ∈ seen →
    (mergeRun fs model im seen l).1.get? j = some [] := by
  intro l
  induction l with
  | nil => intro seen j hj; simp at hj
  | cons p ps ih =>
    intro seen j hj hmem
    cases j with
    | zero =>
      have hp : uidOf p ∈ seen := hmem
      simp only [mergeRun, stepFile_skip fs model im p seen hp]
      rfl
    | succ j =>
      simp only [mergeRun, List.get?_cons_succ]
      exact ih _ j (by simpa using hj)
        (stepFile_seen_mono fs model im p seen _ hmem)

theorem mergeRun_append (fs : Str → FileContent) (model : List Str)
    (im : Bool) : ∀ (l1 l2 : List Str) (seen : List Str),
    mergeRun fs model im seen (l1 ++ l2) =
      ((mergeRun fs model im seen l1).1 ++
         (mergeRun fs model im (mergeRun fs model im seen l1).2 l2).1,
       (mergeRun fs model im (mergeRun fs model im seen l1).2 l2).2) := by
  intro l1
  induction l1 with
  | nil => intro l2 seen; rfl
  | cons p ps ih =>
    intro l2 seen
    simp only [List.cons_append, mergeRun, List.append_eq]
    rw [ih]

theorem get_mem_take : ∀ (l : List Str) (i : Nat) (hi : i < l.length),
    l.get ⟨i, hi⟩ ∈ l.take (i + 1) := by
  intro l
  induction l with
  | nil => intro i hi; simp at hi
  | cons p ps ih =>
    intro i hi
    cases i with
    | zero => exact List.mem_cons_self _ _
    | succ i =>
      exact List.mem_cons_of_mem _ (ih i (by simpa using hi))

/-- C6: over a whole merge run (files processed in lexicographically sorted
path order), any file preceded by another file with the same derived study
identity contributes an empty record list, so at most one file per distinct
identity contributes output records. -/
theorem dedup_later_duplicate_empty :
    ∀ (fs : Str → FileContent) (model : List Str) (im : Bool)
      (files : List Str) (i j : Nat) (hj : j < (pySorted files).length)
      (hij : i < j),
      uidOf ((pySorted files).get ⟨i, Nat.lt_trans hij hj⟩) =
        uidOf ((pySorted files).get ⟨j, hj⟩) →
      (mainRun fs model im files).1.get? j = some [] := by
  intro fs model im files i j hj hij huid
  set l := pySorted files with hldef
  have hi1 : i + 1 ≤ l.length := by omega
  have hlen1 : (l.take (i + 1)).length = i + 1 := by
    rw [List.length_take]
    omega
  have hmem1 : uidOf (l.get ⟨j, hj⟩) ∈
      (mergeRun fs model im [] (l.take (i + 1))).2 := by
    rw [← huid]
    exact mergeRun_uid_mem fs model im _ _ []
      (get_mem_take l i (Nat.lt_trans hij hj))
  have hj2 : j - (i + 1) < (l.drop (i + 1)).length := by
    rw [List.length_drop]
    omega
  have hgetdrop : (l.drop (i + 1)).get ⟨j - (i + 1), hj2⟩ = l.get ⟨j, hj⟩ := by
    simp only [List.get_eq_getElem]
    rw [List.getElem_drop]
    congr 1
    omega
  have hrun := mergeRun_skip_at fs model im (l.drop (i + 1))
    (mergeRun fs model im [] (l.take (i + 1))).2 (j - (i + 1)) hj2
    (by rw [hgetdrop]; exact hmem1)
  have happ := mergeRun_append fs model im (l.take (i + 1)) (l.drop (i + 1)) []
  rw [List.take_append_drop] at happ
  show (mergeRun fs model im [] l).1.get? j = some []
  rw [happ]
  have hlen : (mergeRun fs model im [] (l.take (i + 1))).1.length = i + 1 := by
    rw [mergeRun_length]
    exact hlen1
  rw [List.get?_append_right (by omega : (mergeRun fs model im []
    (l.take (i + 1))).1.length ≤ j), hlen]
  exact hrun

/-- Witness for C6: two concrete files in sorted order sharing study
identity `sc`; the second contributes no records. -/
theorem dedup_later_duplicate_empty_witness :
    (mainRun (fun _ => []) [] false [str "a/s_c/d1", str "b/s_c/d2"]).1.get? 1 =
      some [] :=
  dedup_later_duplicate_empty (fun _ => []) [] false
    [str "a/s_c/d1", str "b/s_c/d2"] 0 1 (by decide) (by decide) (by decide)

/-- C9: the deduplication key is the plain concatenation study ++ center, so
two paths with distinct (study, center) pairs whose concatenations coincide
share one identity, and the later of them contributes no records. -/
theorem uid_concat_collision :
    ∀ (fs : Str → FileContent) (model : List Str) (im : Bool) (p1 p2 : Str),
      (studyOf p1, centerOf p1) ≠ (studyOf p2, centerOf p2) →
      studyOf p1 ++ centerOf p1 = studyOf p2 ++ centerOf p2 →
      uidOf p1 = uidOf p2 ∧
      (mergeRun fs model im [] [p1, p2]).1.get? 1 = some [] := by
  intro fs model im p1 p2 hne heq
  have huid : uidOf p1 = uidOf p2 := heq
  refine ⟨huid, ?_⟩
  have hmem : uidOf p2 ∈ (stepFile fs model im p1 []).2 :=
    huid ▸ stepFile_uid_mem fs model im p1 []
  simp only [mergeRun, stepFile_skip fs model im p2 _ hmem]
  rfl

/-- Witness for C9: `x/ab_c/d` (study "ab", center "c") and `x/a_bc/d`
(study "a", center "bc") collide on the key "abc". -/
theorem uid_concat_collision_witness :
    uidOf (str "x/ab_c/d") = uidOf (str "x/a_bc/d") ∧
    (mergeRun (fun _ => []) [] false []
      [str "x/ab_c/d", str "x/a_bc/d"]).1.get? 1 = some [] :=
  uid_concat_collision (fun _ => []) [] false (str "x/ab_c/d")
    (str "x/a_bc/d") (by decide) (by decide)

/-- C10: the seen-identity set is extended before the path-based
model-study check and the entirely-model check, so a file skipped by either
check still claims its study identity: a later file with the same uid is
deduplicated away even though the study contributed no records at all. -/
theorem skipped_file_claims_identity :
    ∀ (fs : Str → FileContent) (model : List Str) (p1 p2 : Str)
      (seen : List Str),
      uidOf p1 ∉ seen →
      (is_model_study_path p1 = true ∨
        (model ≠ [] ∧ is_file_entirely_model (fs p1) model = true)) →
      uidOf p2 = uidOf p1 →
      (stepFile fs model false p1 seen).1 = [] ∧
      uidOf p2 ∈ (stepFile fs model false p1 seen).2 ∧
      (mergeRun fs model false seen [p1, p2]).1 = [[], []] := by
  intro fs model p1 p2 seen h1 h2 huid
  have hstep1 : (stepFile fs model false p1 seen).1 = [] := by
    rcases h2 with hpath | ⟨hmod, hent⟩
    · simp [stepFile, h1, hpath]
    · by_cases hpath : is_model_study_path p1
      · simp [stepFile, h1, hpath]
      · have hm : model.isEmpty = false := by
          rw [Bool.eq_false_iff]
          intro hc
          exact hmod (List.isEmpty_iff.mp hc)
        simp [stepFile, h1, hpath, process_body, hent, hm]
  have hmem : uidOf p2 ∈ (stepFile fs model false p1 seen).2 := by
    rw [huid]
    exact stepFile_uid_mem fs model false p1 seen
  refine ⟨hstep1, hmem, ?_⟩
  simp only [mergeRun, stepFile_skip fs model false p2 _ hmem]
  rw [hstep1]

/-- Witness for C10: a `pdx` path is skipped by the path-based check yet a
second file with the same derived identity is still deduplicated. -/
theorem skipped_file_claims_identity_witness :
    (stepFile (fun _ => []) [] false (str "r/pdx/data_mutations.txt") []).1 = [] ∧
    uidOf (str "s/pdx/data_mutations.txt") ∈
      (stepFile (fun _ => []) [] false (str "r/pdx/data_mutations.txt") []).2 ∧
    (mergeRun (fun _ => []) [] false []
      [str "r/pdx/data_mutations.txt", str "s/pdx/data_mutations.txt"]).1 =
      [[], []] :=
  skipped_file_claims_identity (fun _ => []) []
    (str "r/pdx/data_mutations.txt") (str "s/pdx/data_mutations.txt") []
    (by decide) (Or.inl (by decide)) (by decide)

/-- The last classification bound to `k` in the mapping `m` (Python
`dict.update` semantics: later entries win). -/
def dlast (k : Str) : List (Str × Bool) → Option Bool
  | [] => none
  | (k', v) :: rest =>
    match dlast k rest with
    | some w => some w
    | none => if k' = k then some v else none

/-- The keys of a mapping, in insertion order. -/
def dkeys (d : List (Str × Bool)) : List Str := d.map Prod.fst

theorem dlookup_dinsert (k k' : Str) (v : Bool) :
    ∀ d : List (Str × Bool),
      dlookup k (dinsert k' v d) = if k' = k then some v else dlookup k d := by
  intro d
  induction d with
  | nil => simp [dinsert, dlookup]
  | cons kv rest ih =>
    obtain ⟨a, b⟩ := kv
    simp only [dinsert, dlookup]
    split_ifs with h1 h2 h3 <;> simp_all [dlookup]

theorem dlookup_dupdate (k : Str) :
    ∀ (m acc : List (Str × Bool)),
      dlookup k (dupdate acc m) =
        match dlast k m with
        | some v => some v
        | none => dlookup k acc := by
  intro m
  induction m with
  | nil => intro acc; rfl
  | cons kv rest ih =>
    obtain ⟨k1, v1⟩ := kv
    intro acc
    simp only [dupdate, List.foldl_cons] at ih ⊢
    rw [ih (dinsert k1 v1 acc)]
    simp only [dlast]
    cases hdl : dlast k rest with
    | some w => rfl
    | none =>
      rw [dlookup_dinsert]
      by_cases h : k1 = k
      · simp [h]
      · simp [h]

theorem dlookup_dupdate_of_dlast_some (k : Str) (m acc : List (Str × Bool))
    (v : Bool) (h : dlast k m = some v) :
    dlookup k (dupdate acc m) = some v := by
  rw [dlookup_dupdate k m acc, h]

theorem dlookup_dupdate_of_dlast_none (k : Str) (m acc : List (Str × Bool))
    (h : dlast k m = none) :
    dlookup k (dupdate acc m) = dlookup k acc := by
  rw [dlookup_dupdate k m acc, h]

theorem dkeys_dinsert (k : Str) (v : Bool) :
    ∀ d, dkeys (dinsert k v d) =
      if k ∈ dkeys d then dkeys d else dkeys d ++ [k] := by
  intro d
  induction d with
  | nil => simp [dinsert, dkeys]
  | cons kv rest ih =>
    obtain ⟨a, b⟩ := kv
    by_cases h1 : a = k
    · subst h1
      simp [dinsert, dkeys]
    · have hsym : ¬ (k = a) := fun hc => h1 hc.symm
      have hmem : (k ∈ dkeys ((a, b) :: rest)) ↔ k ∈ dkeys rest := by
        simp only [dkeys, List.map_cons, List.mem_cons]
        exact ⟨fun hc => hc.resolve_left hsym, Or.inr⟩
      simp only [dinsert, if_neg h1]
      show a :: dkeys (dinsert k v rest) = _
      rw [ih]
      by_cases h2 : k ∈ dkeys rest
      · rw [if_pos h2, if_pos (hmem.mpr h2)]
        rfl
      · rw [if_neg h2, if_neg (fun hc => h2 (hmem.mp hc))]
        rfl

theorem nodup_dkeys_dinsert (k : Str) (v : Bool) (d : List (Str × Bool))
    (h : (dkeys d).Nodup) : (dkeys (dinsert k v d)).Nodup := by
  rw [dkeys_dinsert]
  split_ifs with h1
  · exact h
  · simp [List.nodup_append, h, h1]

theorem parseMetaRows_nodup (delim : Char) (sidx tidx : Nat) :
    ∀ (ls : List Str) (d : List (Str × Bool)), (dkeys d).Nodup →
      (dkeys (parseMetaRows delim sidx tidx ls d)).Nodup := by
  intro ls
  induction ls with
  | nil => intro d h; exact h
  | cons l t ih =>
    intro d h
    simp only [parseMetaRows]
    split_ifs with h1 h2 h3
    · exact ih d h
    · exact ih d h
    · exact ih d h
    · exact ih _ (nodup_dkeys_dinsert _ _ _ h)

theorem parse_metadata_nodup (c : FileContent) :
    (dkeys (_parse_metadata_file c)).Nodup := by
  unfold _parse_metadata_file
  rcases hsp : splitHeader c with _ | ⟨hl, rest⟩
  · simp [dkeys]
  · dsimp only
    split_ifs with h1
    · simp [dkeys]
    · rcases hci : _find_column_index (splitOnChar (_detect_delimiter c)
          (strip hl)) SAMPLE_ID_COLUMNS with _ | sidx
      · simp [dkeys]
      · rcases hct : _find_column_index (splitOnChar (_detect_delimiter c)
            (strip hl)) SAMPLE_TYPE_COLUMNS with _ | tidx
        · simp [dkeys]
        · exact parseMetaRows_nodup _ _ _ rest [] (by simp [dkeys])

theorem dlast_eq_none_of_not_mem (k : Str) :
    ∀ m, k ∉ dkeys m → dlast k m = none := by
  intro m
  induction m with
  | nil => intro h; rfl
  | cons kv rest ih =>
    obtain ⟨a, b⟩ := kv
    intro h
    simp only [dkeys, List.map_cons, List.mem_cons] at h
    push_neg at h
    obtain ⟨h1, h2⟩ := h
    simp only [dlast]
    rw [ih h2]
    rw [if_neg (fun hc => h1 hc.symm)]

theorem dlast_eq_dlookup_of_nodup (k : Str) :
    ∀ m, (dkeys m).Nodup → dlast k m = dlookup k m := by
  intro m
  induction m with
  | nil => intro h; rfl
  | cons kv rest ih =>
    obtain ⟨a, b⟩ := kv
    intro h
    rw [dkeys, List.map_cons] at h
    have hna : a ∉ dkeys rest := (List.nodup_cons.mp h).1
    have hnd : (dkeys rest).Nodup := (List.nodup_cons.mp h).2
    simp only [dlast, dlookup]
    by_cases hak : a = k
    · subst hak
      rw [dlast_eq_none_of_not_mem a rest hna]
      simp
    · rw [ih hnd, if_neg hak]
      cases hdl : dlookup k rest <;> simp [hdl, hak]

theorem load_fold_preserves (k : Str) :
    ∀ (ys : List (Option FileContent)) (acc : List (Str × Bool)),
      (∀ f ∈ ys, ∀ c', f = some c' →
        dlookup k (_parse_metadata_file c') = none) →
      dlookup k (ys.foldl
        (fun acc f? =>
          match f? with
          | none => acc
          | some c => dupdate acc (_parse_metadata_file c)) acc) =
        dlookup k acc := by
  intro ys
  induction ys with
  | nil => intro acc h; rfl
  | cons f t ih =>
    intro acc h
    simp only [List.foldl_cons]
    cases f with
    | none => exact ih acc (fun g hg => h g (List.mem_cons_of_mem _ hg))
    | some c' =>
      have hn : dlookup k (_parse_metadata_file c') = none :=
        h (some c') (List.mem_cons_self _ _) c' rfl
      rw [ih _ (fun g hg => h g (List.mem_cons_of_mem _ hg))]
      apply dlookup_dupdate_of_dlast_none
      rw [dlast_eq_dlookup_of_nodup k _ (parse_metadata_nodup c')]
      exact hn

/-- C7: `load_sample_metadata` merges the per-file mappings in
file-discovery order: the classification of the later-processed file wins
for a shared identifier, and a parse failure (`none`) in one metadata file
leaves the contributions of the other files unchanged. -/
theorem metadata_merge_spec :
    (∀ (xs ys : List (Option FileContent)) (c : FileContent) (k : Str)
      (v : Bool),
      dlookup k (_parse_metadata_file c) = some v →
      (∀ f ∈ ys, ∀ c', f = some c' →
        dlookup k (_parse_metadata_file c') = none) →
      dlookup k (load_sample_metadata (xs ++ some c :: ys)) = some v) ∧
    (∀ xs ys : List (Option FileContent),
      load_sample_metadata (xs ++ none :: ys) =
        load_sample_metadata (xs ++ ys)) := by
  constructor
  · intro xs ys c k v hv hlater
    unfold load_sample_metadata
    rw [List.foldl_append, List.foldl_cons]
    rw [load_fold_preserves k ys _ hlater]
    apply dlookup_dupdate_of_dlast_some
    rw [dlast_eq_dlookup_of_nodup k _ (parse_metadata_nodup c)]
    exact hv
  · intro xs ys
    unfold load_sample_metadata
    rw [List.foldl_append, List.foldl_append, List.foldl_cons]

/-- A metadata file classifying S1 as a patient sample. -/
def metaFileA : FileContent := [str "sample_id\tsample_type", str "S1\tPatient"]

/-- A metadata file classifying S1 as a PDX (model) sample. -/
def metaFileB : FileContent := [str "sample_id\tsample_type", str "S1\tPDX"]

/-- Witness for C7: loading the patient file then the PDX file leaves S1
classified as model (the later file won), and a failing file between
parsed files changes nothing. -/
theorem metadata_merge_spec_witness :
    dlookup (str "S1")
      (load_sample_metadata ([some metaFileA] ++ some metaFileB :: [])) =
      some true ∧
    load_sample_metadata ([some metaFileA] ++ none :: []) =
      load_sample_metadata ([some metaFileA] ++ []) :=
  ⟨metadata_merge_spec.1 [some metaFileA] [] metaFileB (str "S1") true
      (by decide) (by simp),
   metadata_merge_spec.2 [some metaFileA] []⟩
